import Mathlib

set_option autoImplicit false

/-!
Shallow embedding of the release-manager application core, translated from
the repository sources:

* `src/widgets/release-manager-page/utils/progress-helpers.ts` and
  `utils/progress-cache.ts` (zone classification of custom-field values);
* `src/widgets/release-manager-page/hooks/useVersionProgress.ts` (the
  progress aggregator: the `fetchIssueData` effect together with the
  memoised `filteredIds`, `idToIssue` and `allIssueIdsToFetch` values);
* `src/backend.js` (release CRUD validation and handlers, the app-settings
  handler, the issue-status and issue-test-status handlers, and
  `resolveFieldNameCaseInsensitive`).

JavaScript objects are modelled by structures; maps keyed by issue id by
functions into `Option`; absent or empty string fields by `""` where the
source only ever tests truthiness.  Date fields are ISO `YYYY-MM-DD`
strings, on which the comparison `new Date(a) > new Date(b)` performed by
the source coincides with lexicographic string comparison, which is how it
is embedded here.
-/

namespace ReleaseManager

/-- Manual issue status, stored in `issueStatuses` (backend.js PUT issue-status). -/
inductive IssueStatus where
  | Unresolved
  | Fixed
  | Merged
  | Discoped
deriving DecidableEq, Repr

/-- Manual test status, stored in `testStatuses` (backend.js PUT issue-test-status). -/
inductive TestStatus where
  | Tested
  | NotTested
  | TestNA
deriving DecidableEq, Repr

/-- Progress zone of an issue, as computed by `getZoneForValue`. -/
inductive Zone where
  | green
  | yellow
  | red
  | grey
deriving DecidableEq, Repr

/-- The part of AppSettings read by the progress computation. -/
structure AppSettings where
  customFieldNames : List String
  greenZoneValues : List String
  yellowZoneValues : List String
  redZoneValues : List String
deriving DecidableEq, Repr

/-- The model of the JavaScript toLowerCase call: lower-case the string
character by character.  (Identical in effect to String.toLower, whose
well-founded recursion however does not reduce definitionally; this
data-level version computes inside the kernel.) -/
def jsToLower (s : String) : String := ⟨s.data.map Char.toLower⟩

/-- Lower-cased zone value lists, from `getNormalizedZones` in progress-cache.ts. -/
structure NormalizedZones where
  green : List String
  yellow : List String
  red : List String
deriving DecidableEq, Repr

/-- getNormalizedZones (progress-cache.ts): lower-case every configured zone value. -/
def getNormalizedZones (settings : AppSettings) : NormalizedZones :=
  { green := settings.greenZoneValues.map jsToLower
    yellow := settings.yellowZoneValues.map jsToLower
    red := settings.redZoneValues.map jsToLower }

/-- getZoneForValue (progress-helpers.ts): a falsy value (null or the empty
string) is grey; otherwise the lower-cased value is looked up in the green,
then yellow, then red lists, defaulting to grey. -/
def getZoneForValue (value : Option String) (settings : AppSettings) : Zone :=
  match value with
  | none => Zone.grey
  | some str =>
    if str = "" then Zone.grey
    else
      let v := jsToLower str
      let zones := getNormalizedZones settings
      if zones.green.contains v then Zone.green
      else if zones.yellow.contains v then Zone.yellow
      else if zones.red.contains v then Zone.red
      else Zone.grey

/-- A planned issue entry of a release version, as read by useVersionProgress
(`IssueRef`): an id plus the meta fields. -/
structure PlannedIssue where
  id : String
  isMeta : Bool
  metaRelatedIssueIds : Option (List String)
deriving DecidableEq, Repr

/-- One row of a bulk field result: an issue id with the resolved field value. -/
structure FieldItem where
  id : String
  value : Option String
deriving DecidableEq, Repr

/-- The per-entry progress record built by the `processedResults` map in
useVersionProgress (the `parent` object). -/
structure EntryResult where
  green : Nat
  yellow : Nat
  red : Nat
  grey : Nat
  total : Nat
  available : Bool
deriving DecidableEq, Repr

/-- The release-level tally (`ProgressData` in useVersionProgress.ts). -/
structure ProgressData where
  green : Nat
  yellow : Nat
  red : Nat
  grey : Nat
  total : Nat
deriving DecidableEq, Repr

/-- An entry counting 1 in the bucket of the given zone, as built by the
return statements of the meta and regular branches. -/
def entryOfZone (zone : Zone) (available : Bool) : EntryResult :=
  { green := if zone = Zone.green then 1 else 0
    yellow := if zone = Zone.yellow then 1 else 0
    red := if zone = Zone.red then 1 else 0
    grey := if zone = Zone.grey then 1 else 0
    total := 1
    available := available }

/-- `result.items.find(it => it.id === relId)?.value ?? null` from
useVersionProgress.ts. -/
def bulkValue (items : List FieldItem) (issueId : String) : Option String :=
  (items.find? (fun it => it.id == issueId)).bind (fun it => it.value)

/-- Accumulator of the related-issue loop of the meta branch
(useVersionProgress.ts lines 207 to 249). -/
structure MetaAcc where
  considered : Nat
  hasRed : Bool
  hasYellow : Bool
  allGreen : Bool
  hasGreen : Bool
  available : Bool
deriving DecidableEq, Repr

/-- One iteration of the `for (const relId of relatedIds)` loop of the meta
branch of useVersionProgress. -/
def metaStep (settings : AppSettings) (statusOf : String → IssueStatus)
    (batch : String → Option (List FieldItem)) (acc : MetaAcc) (relId : String) : MetaAcc :=
  let relStatus := statusOf relId
  if relStatus = IssueStatus.Discoped then acc
  else if relStatus = IssueStatus.Fixed ∨ relStatus = IssueStatus.Merged then
    { acc with considered := acc.considered + 1, hasGreen := true, available := true }
  else
    match batch relId with
    | some items =>
      let parentVal := bulkValue items relId
      let z := getZoneForValue parentVal settings
      { considered := acc.considered + 1
        hasRed := acc.hasRed || z == Zone.red
        hasYellow := acc.hasYellow || z == Zone.yellow
        allGreen := acc.allGreen && z == Zone.green
        hasGreen := acc.hasGreen || z == Zone.green
        available := acc.available || parentVal.isSome }
    | none =>
      { acc with considered := acc.considered + 1, allGreen := false }

/-- The meta-issue branch of useVersionProgress (lines 205 to 277): fold the
related ids, then pick the zone with priority red, yellow, all-green, grey;
zero considered issues give grey and unavailable. -/
def processMeta (settings : AppSettings) (statusOf : String → IssueStatus)
    (batch : String → Option (List FieldItem)) (relatedIds : List String) : EntryResult :=
  let acc := relatedIds.foldl (metaStep settings statusOf batch)
    { considered := 0, hasRed := false, hasYellow := false
      allGreen := true, hasGreen := false, available := false }
  if acc.considered > 0 then
    let zone :=
      if acc.hasRed then Zone.red
      else if acc.hasYellow then Zone.yellow
      else if acc.allGreen && acc.hasGreen then Zone.green
      else Zone.grey
    entryOfZone zone acc.available
  else
    entryOfZone Zone.grey false

/-- Accumulator of the subtask-value loop of the regular branch
(useVersionProgress.ts lines 304 to 321). -/
structure ZoneAcc where
  hasRed : Bool
  hasYellow : Bool
  allGreen : Bool
  hasGreen : Bool
deriving DecidableEq, Repr

/-- One iteration of the `for (const v of subtaskValues)` loop. -/
def zoneStep (settings : AppSettings) (acc : ZoneAcc) (v : Option String) : ZoneAcc :=
  let z := getZoneForValue v settings
  { hasRed := acc.hasRed || z == Zone.red
    hasYellow := acc.hasYellow || z == Zone.yellow
    allGreen := acc.allGreen && z == Zone.green
    hasGreen := acc.hasGreen || z == Zone.green }

/-- Combination of the subtask zones in the regular branch of
useVersionProgress (lines 304 to 330). -/
def subtaskCombine (settings : AppSettings) (subtaskValues : List (Option String)) : Zone :=
  let acc := subtaskValues.foldl (zoneStep settings)
    { hasRed := false, hasYellow := false, allGreen := true, hasGreen := false }
  if acc.hasRed then Zone.red
  else if acc.hasYellow then Zone.yellow
  else if acc.allGreen && acc.hasGreen then Zone.green
  else Zone.grey

/-- The regular-issue branch of useVersionProgress (lines 279 to 345). -/
def processRegular (settings : AppSettings) (batch : String → Option (List FieldItem))
    (id : String) : EntryResult :=
  match batch id with
  | none => { green := 0, yellow := 0, red := 0, grey := 1, total := 1, available := false }
  | some items =>
    if items.any (fun it => it.value.isSome) then
      let parentValue := bulkValue items id
      let parentZone :=
        match parentValue with
        | some _ => getZoneForValue parentValue settings
        | none =>
          let subtaskValues := (items.filter (fun it => it.id != id)).map (fun it => it.value)
          if subtaskValues.isEmpty then Zone.grey
          else subtaskCombine settings subtaskValues
      entryOfZone parentZone true
    else
      { green := 0, yellow := 0, red := 0, grey := 1, total := 1, available := false }

/-- One element of the `processedResults` map of useVersionProgress (lines
194 to 346): the manual override wins, then the meta branch runs when the
entry is a meta issue with a non-empty related list, otherwise the regular
branch. -/
def processEntry (settings : AppSettings) (statusOf : String → IssueStatus)
    (batch : String → Option (List FieldItem)) (issue : Option PlannedIssue)
    (id : String) : EntryResult :=
  let st := statusOf id
  if st = IssueStatus.Fixed ∨ st = IssueStatus.Merged then
    { green := 1, yellow := 0, red := 0, grey := 0, total := 1, available := true }
  else
    match issue with
    | some iss =>
      if iss.isMeta then
        match iss.metaRelatedIssueIds with
        | some relatedIds =>
          if relatedIds.length > 0 then processMeta settings statusOf batch relatedIds
          else processRegular settings batch id
        | none => processRegular settings batch id
      else processRegular settings batch id
    | none => processRegular settings batch id

/-- First-occurrence deduplication, the model of `Array.from(new Set(ids))`. -/
def dedupFirst (ids : List String) : List String :=
  ids.foldl (fun acc x => if acc.contains x then acc else acc ++ [x]) []

/-- `effectiveIdsRaw` of useVersionProgress: the planned-issue ids, dropping
falsy (empty) ids. -/
def effectiveIdsRaw (plannedIssues : List PlannedIssue) : List String :=
  (plannedIssues.map PlannedIssue.id).filter (fun i => i != "")

/-- `filteredIds` of useVersionProgress: unique ids excluding Discoped ones. -/
def filteredIds (plannedIssues : List PlannedIssue) (statusOf : String → IssueStatus) :
    List String :=
  (dedupFirst (effectiveIdsRaw plannedIssues)).filter
    (fun i => statusOf i != IssueStatus.Discoped)

/-- `idToIssue` of useVersionProgress, built with `Object.fromEntries`, where a
later entry with the same id overwrites an earlier one. -/
def idToIssue (plannedIssues : List PlannedIssue) (id : String) : Option PlannedIssue :=
  plannedIssues.reverse.find? (fun it => it.id == id)

/-- One iteration of the loop building `allIssueIdsToFetch`. -/
def fetchStep (plannedIssues : List PlannedIssue) (statusOf : String → IssueStatus)
    (acc : List String) (id : String) : List String :=
  let st := statusOf id
  if st = IssueStatus.Fixed ∨ st = IssueStatus.Merged then acc
  else
    match idToIssue plannedIssues id with
    | some iss =>
      if iss.isMeta then
        match iss.metaRelatedIssueIds with
        | some relatedIds =>
          relatedIds.foldl (fun a relId =>
            let relStatus := statusOf relId
            if relStatus != IssueStatus.Discoped && relStatus != IssueStatus.Fixed
                && relStatus != IssueStatus.Merged
            then a ++ [relId] else a) acc
        | none => acc ++ [id]
      else acc ++ [id]
    | none => acc ++ [id]

/-- `allIssueIdsToFetch` of useVersionProgress, as a list whose membership
models membership in the fetched `Set`. -/
def allIssueIdsToFetch (plannedIssues : List PlannedIssue)
    (statusOf : String → IssueStatus) : List String :=
  (filteredIds plannedIssues statusOf).foldl (fetchStep plannedIssues statusOf) []

/-- The `batchResults` seen by the processing step: the bulk API data
restricted to the ids actually fetched, and empty when no custom field names
are configured (`shouldFetch`). -/
def restrictBatch (settings : AppSettings) (fetchIds : List String)
    (fieldData : String → Option (List FieldItem)) : String → Option (List FieldItem) :=
  fun id =>
    if !settings.customFieldNames.isEmpty && fetchIds.contains id then fieldData id
    else none

/-- The reducer building `aggregatedMain`. -/
def addEntry (acc : ProgressData) (r : EntryResult) : ProgressData :=
  { green := acc.green + r.green
    yellow := acc.yellow + r.yellow
    red := acc.red + r.red
    grey := acc.grey + r.grey
    total := acc.total + r.total }

/-- The whole `fetchIssueData` effect of useVersionProgress (lines 154 to
364): `none` models the early return that leaves the previous state in place
when statuses are not loaded and no manual status exists; otherwise the
result is the pair `(mainProgress, mainAvailable)` that the effect stores. -/
def fetchIssueData (plannedIssues : List PlannedIssue) (settings : AppSettings)
    (statusOf : String → IssueStatus) (fieldData : String → Option (List FieldItem))
    (statusesLoaded : Bool) : Option (ProgressData × Bool) :=
  let fids := filteredIds plannedIssues statusOf
  if fids.isEmpty then
    some ({ green := 0, yellow := 0, red := 0, grey := 0, total := 0 }, false)
  else
    let hasManualStatuses := fids.any (fun id =>
      statusOf id == IssueStatus.Fixed || statusOf id == IssueStatus.Merged)
    if !statusesLoaded && !hasManualStatuses then none
    else
      let batch := restrictBatch settings (allIssueIdsToFetch plannedIssues statusOf) fieldData
      let results := fids.map (fun id =>
        processEntry settings statusOf batch (idToIssue plannedIssues id) id)
      let tally := results.foldl addEntry
        { green := 0, yellow := 0, red := 0, grey := 0, total := 0 }
      let mainAny := hasManualStatuses || results.any EntryResult.available
      some (tally, mainAny)

/-! Spec-side definitions.  The following three definitions follow the words
of the specification (section 4.4), not the source; they exist to be compared
with the source-derived functions above. -/

/-- Spec reading, for comparison: the zone of one related issue of a meta
entry — green when its manual status is Fixed or Merged, otherwise the zone
of its custom-field value. -/
def relatedZoneSpec (settings : AppSettings) (statusOf : String → IssueStatus)
    (batch : String → Option (List FieldItem)) (relId : String) : Zone :=
  if statusOf relId = IssueStatus.Fixed ∨ statusOf relId = IssueStatus.Merged then Zone.green
  else getZoneForValue ((batch relId).bind (fun items => bulkValue items relId)) settings

/-- Spec reading, for comparison: the tie-break priority red over yellow over
green (only when all are green and at least one is green) over grey. -/
def combineZonesSpec (zones : List Zone) : Zone :=
  if zones.contains Zone.red then Zone.red
  else if zones.contains Zone.yellow then Zone.yellow
  else if zones.all (fun z => z == Zone.green) && zones.contains Zone.green then Zone.green
  else Zone.grey

/-- Spec reading, for comparison: a meta entry found real data when some
considered related issue has a manual override or a non-null field value. -/
def metaAvailableSpec (statusOf : String → IssueStatus)
    (batch : String → Option (List FieldItem)) (considered : List String) : Bool :=
  considered.any (fun relId =>
    (statusOf relId == IssueStatus.Fixed || statusOf relId == IssueStatus.Merged)
    || ((batch relId).bind (fun items => bulkValue items relId)).isSome)

/-- The related issues of a meta entry that remain after excluding Discoped
ones. -/
def consideredIds (statusOf : String → IssueStatus) (relatedIds : List String) : List String :=
  relatedIds.filter (fun relId => statusOf relId != IssueStatus.Discoped)

/-! Backend model (backend.js). -/

/-- A release version record, with absent optional string fields modelled by
the empty string (the source only ever tests their truthiness).
`linkedIssues` is typed as a list, so the shape-only check of
`validateLinkedIssues` can never fail in this model and is omitted from
`validateReleaseVersion`. -/
structure ReleaseVersion where
  id : String
  version : String
  product : String
  description : String
  featureFreezeDate : String
  releaseDate : String
  status : String
  freezeConfirmed : Bool
  plannedIssues : List PlannedIssue
  linkedIssues : List String
deriving DecidableEq, Repr

/-- The five allowed status values of validateStatusField. -/
def validStatuses : List String :=
  ["Planning", "In progress", "Released", "Overdue", "Canceled"]

/-- validateVersionField (backend.js): the version must be non-empty. -/
def validateVersionField (releaseVersion : ReleaseVersion) : List String :=
  if releaseVersion.version = "" then ["Version is required"] else []

/-- The error part of validateStatusField (backend.js): an absent status is
defaulted (see `normalizeStatus`), a present one must be allowed. -/
def validateStatusField (releaseVersion : ReleaseVersion) : List String :=
  if releaseVersion.status = "" then []
  else if validStatuses.contains releaseVersion.status then []
  else ["Status must be one of: Planning, In progress, Released, Overdue, Canceled"]

/-- The mutation part of validateStatusField: default the status to Planning
when it is absent. -/
def normalizeStatus (releaseVersion : ReleaseVersion) : ReleaseVersion :=
  if releaseVersion.status = "" then { releaseVersion with status := "Planning" }
  else releaseVersion

/-- Lexicographic comparison of ISO date strings, definitionally the String
less-than order; it models `new Date(a) < new Date(b)`, with which it agrees
on ISO dates of the form YYYY-MM-DD. -/
abbrev dateLt (a b : String) : Prop := a.data < b.data

/-- validateDateFields (backend.js): the release date is required, and when
both dates are present the feature-freeze date must not be after the release
date (`new Date(freeze) > new Date(release)` on ISO date strings, embedded as
lexicographic comparison). -/
def validateDateFields (releaseVersion : ReleaseVersion) : List String :=
  (if releaseVersion.releaseDate = "" then ["Release Date is required"] else []) ++
  (if releaseVersion.featureFreezeDate ≠ "" ∧ releaseVersion.releaseDate ≠ ""
      ∧ dateLt releaseVersion.releaseDate releaseVersion.featureFreezeDate
   then ["Feature Freeze Date must be before Release Date"] else [])

/-- validateReleaseVersion (backend.js): run the field validators in order and
collect their messages; the returned record carries the defaulted status. -/
def validateReleaseVersion (releaseVersion : ReleaseVersion) : ReleaseVersion × List String :=
  (normalizeStatus releaseVersion,
    validateVersionField releaseVersion ++ validateStatusField releaseVersion
      ++ validateDateFields releaseVersion)

/-- Responses of the release handlers that the claims distinguish. -/
inductive ReleaseResponse where
  | created (body : ReleaseVersion)
  | ok (body : ReleaseVersion)
  | badRequest (errors : List String)
  | notFound
deriving DecidableEq, Repr

/-- POST releases handler (backend.js lines 327 to 362): validate, assign the
fresh id `newId` (`Date.now().toString()` in the source), append and save. -/
def postReleases (store : List ReleaseVersion) (payload : ReleaseVersion)
    (newId : String) : List ReleaseVersion × ReleaseResponse :=
  let validated := validateReleaseVersion payload
  if validated.2 = [] then
    let withId := { validated.1 with id := newId }
    (store ++ [withId], ReleaseResponse.created withId)
  else
    (store, ReleaseResponse.badRequest validated.2)

/-- PUT release handler (backend.js lines 367 to 408): validate, look the
record up by the id query parameter, replace it wholesale with the payload
while forcing the stored id back onto it. -/
def putRelease (store : List ReleaseVersion) (id : String) (payload : ReleaseVersion) :
    List ReleaseVersion × ReleaseResponse :=
  let validated := validateReleaseVersion payload
  if validated.2 = [] then
    match store.findIdx? (fun rv => rv.id == id) with
    | some index =>
      let preserved := { validated.1 with id := id }
      (store.set index preserved, ReleaseResponse.ok preserved)
    | none => (store, ReleaseResponse.notFound)
  else
    (store, ReleaseResponse.badRequest validated.2)

/-- The app-settings body of the PUT app-settings handler.
`customFieldNames = none` models a body whose customFieldNames is absent or
not an array (the two cases the source treats identically). -/
structure AppSettingsBody where
  customFieldNames : Option (List String)
  greenZoneValues : List String
  yellowZoneValues : List String
  redZoneValues : List String
  products : List String
deriving DecidableEq, Repr

/-- Responses of the PUT app-settings handler. -/
inductive SettingsResponse where
  | ok (body : AppSettingsBody)
  | badRequest (message : String)
deriving DecidableEq, Repr

/-- PUT app-settings handler (backend.js lines 263 to 281): reject a missing,
non-array or empty customFieldNames without touching storage, otherwise store
the body wholesale. -/
def putAppSettings (stored : Option AppSettingsBody) (body : AppSettingsBody) :
    Option AppSettingsBody × SettingsResponse :=
  match body.customFieldNames with
  | none => (stored, SettingsResponse.badRequest "At least one custom field name is required")
  | some names =>
    if names.isEmpty then
      (stored, SettingsResponse.badRequest "At least one custom field name is required")
    else
      (some body, SettingsResponse.ok body)

/-- The issueStatusData blob: the two parallel maps keyed by issue id. -/
structure IssueStatusData where
  issueStatuses : String → Option IssueStatus
  testStatuses : String → Option TestStatus

/-- The state of a store that was never written. -/
def emptyIssueStatusData : IssueStatusData :=
  { issueStatuses := fun _ => none, testStatuses := fun _ => none }

/-- PUT issue-status handler (backend.js lines 482 to 518): an empty issueId
is rejected without mutation; otherwise the status is stored and, when it is
not Fixed or Merged, the test status of the issue is reset to Not tested. -/
def putIssueStatus (data : IssueStatusData) (issueId : String) (status : IssueStatus) :
    IssueStatusData :=
  if issueId = "" then data
  else
    { issueStatuses := fun i => if i = issueId then some status else data.issueStatuses i
      testStatuses :=
        if status = IssueStatus.Fixed ∨ status = IssueStatus.Merged then data.testStatuses
        else fun i => if i = issueId then some TestStatus.NotTested else data.testStatuses i }

/-- PUT issue-test-status handler (backend.js lines 523 to 561): an empty
issueId is rejected without mutation; otherwise the requested test status is
stored only when the current issue status is Fixed or Merged, and Not tested
is stored instead of it otherwise (no error is returned). -/
def putIssueTestStatus (data : IssueStatusData) (issueId : String) (testStatus : TestStatus) :
    IssueStatusData :=
  if issueId = "" then data
  else
    let cur := data.issueStatuses issueId
    let stored :=
      if cur = some IssueStatus.Fixed ∨ cur = some IssueStatus.Merged then testStatus
      else TestStatus.NotTested
    { data with
      testStatuses := fun i => if i = issueId then some stored else data.testStatuses i }

/-- A request against the issue/test status maps. -/
inductive StatusOp where
  | putStatus (issueId : String) (status : IssueStatus)
  | putTestStatus (issueId : String) (testStatus : TestStatus)

/-- Apply one request to the stored maps. -/
def applyStatusOp (data : IssueStatusData) : StatusOp → IssueStatusData
  | StatusOp.putStatus issueId status => putIssueStatus data issueId status
  | StatusOp.putTestStatus issueId testStatus => putIssueTestStatus data issueId testStatus

/-- The state reached from the empty store by a sequence of PUT requests. -/
def runStatusOps (ops : List StatusOp) : IssueStatusData :=
  ops.foldl applyStatusOp emptyIssueStatusData

/-- The invariant tying the two status maps together: only a Fixed or Merged
issue may carry a Tested or Test NA test status. -/
def statusInvariant (data : IssueStatusData) : Prop :=
  ∀ id, (data.testStatuses id = some TestStatus.Tested
      ∨ data.testStatuses id = some TestStatus.TestNA) →
    (data.issueStatuses id = some IssueStatus.Fixed
      ∨ data.issueStatuses id = some IssueStatus.Merged)

/-- The keyMap built by resolveFieldNameCaseInsensitive (backend.js lines 667
to 673): lower-cased field name to actual field name, a later field
overwriting an earlier one with the same lower-cased name. -/
def buildKeyMap : List String → String → Option String
  | [], _ => none
  | key :: rest, lk =>
    match buildKeyMap rest lk with
    | some actual => some actual
    | none => if lk = jsToLower key then some key else none

/-- resolveFieldNameCaseInsensitive (backend.js lines 663 to 682): try each
candidate in order against the keyMap; a truthy hit is returned, a falsy one
(absent, or an empty actual name) moves to the next candidate. -/
def resolveFieldNameCaseInsensitive (fields : List String) :
    List String → Option String
  | [] => none
  | candidate :: rest =>
    match buildKeyMap fields (jsToLower candidate) with
    | some actual =>
      if actual = "" then resolveFieldNameCaseInsensitive fields rest
      else some actual
    | none => resolveFieldNameCaseInsensitive fields rest

/-! Theorems. -/

/-- Claim C10: getZoneForValue tests the zone lists in the fixed order green,
then yellow, then red (case-insensitively); a value present in more than one
configured list is classified by the first matching list in that order, so a
value in both the red and the green lists comes out green, not red; a null or
empty value always maps to grey. -/
theorem getZoneForValue_checks_green_first (settings : AppSettings) (v : String)
    (hv : v ≠ "") :
    getZoneForValue none settings = Zone.grey
    ∧ getZoneForValue (some "") settings = Zone.grey
    ∧ ((getNormalizedZones settings).green.contains (jsToLower v) = true →
        getZoneForValue (some v) settings = Zone.green)
    ∧ ((getNormalizedZones settings).green.contains (jsToLower v) = false →
        (getNormalizedZones settings).yellow.contains (jsToLower v) = true →
        getZoneForValue (some v) settings = Zone.yellow)
    ∧ ((getNormalizedZones settings).green.contains (jsToLower v) = false →
        (getNormalizedZones settings).yellow.contains (jsToLower v) = false →
        (getNormalizedZones settings).red.contains (jsToLower v) = true →
        getZoneForValue (some v) settings = Zone.red)
    ∧ ((getNormalizedZones settings).green.contains (jsToLower v) = false →
        (getNormalizedZones settings).yellow.contains (jsToLower v) = false →
        (getNormalizedZones settings).red.contains (jsToLower v) = false →
        getZoneForValue (some v) settings = Zone.grey)
    ∧ ((getNormalizedZones settings).green.contains (jsToLower v) = true →
        (getNormalizedZones settings).red.contains (jsToLower v) = true →
        getZoneForValue (some v) settings = Zone.green) := by
  refine ⟨rfl, by simp [getZoneForValue], ?_, ?_, ?_, ?_, ?_⟩
  · intro h1
    have m1 : jsToLower v ∈ (getNormalizedZones settings).green := by simpa using h1
    simp [getZoneForValue, hv, m1]
  · intro h1 h2
    have m1 : jsToLower v ∉ (getNormalizedZones settings).green := by simpa using h1
    have m2 : jsToLower v ∈ (getNormalizedZones settings).yellow := by simpa using h2
    simp [getZoneForValue, hv, m1, m2]
  · intro h1 h2 h3
    have m1 : jsToLower v ∉ (getNormalizedZones settings).green := by simpa using h1
    have m2 : jsToLower v ∉ (getNormalizedZones settings).yellow := by simpa using h2
    have m3 : jsToLower v ∈ (getNormalizedZones settings).red := by simpa using h3
    simp [getZoneForValue, hv, m1, m2, m3]
  · intro h1 h2 h3
    have m1 : jsToLower v ∉ (getNormalizedZones settings).green := by simpa using h1
    have m2 : jsToLower v ∉ (getNormalizedZones settings).yellow := by simpa using h2
    have m3 : jsToLower v ∉ (getNormalizedZones settings).red := by simpa using h3
    simp [getZoneForValue, hv, m1, m2, m3]
  · intro h1 h2
    have m1 : jsToLower v ∈ (getNormalizedZones settings).green := by simpa using h1
    simp [getZoneForValue, hv, m1]

/-- Claim C10 witness: with green list [done] and red list [done], the value
Done is classified green, and a null value is grey. -/
theorem getZoneForValue_checks_green_first_witness :
    getZoneForValue (some "Done") ⟨["state"], ["done"], [], ["done"]⟩ = Zone.green
    ∧ getZoneForValue none ⟨["state"], ["done"], [], ["done"]⟩ = Zone.grey := by
  have h := getZoneForValue_checks_green_first ⟨["state"], ["done"], [], ["done"]⟩ "Done"
    (by decide)
  exact ⟨h.2.2.2.2.2.2 (by decide) (by decide), h.1⟩

/-- Claim C3: a planned issue whose manual status is Fixed or Merged is
counted as green with total 1 and available, for every zone configuration,
every batch of field data and every shape of the entry. -/
theorem manual_override_wins (settings : AppSettings) (statusOf : String → IssueStatus)
    (batch : String → Option (List FieldItem)) (issue : Option PlannedIssue) (id : String)
    (h : statusOf id = IssueStatus.Fixed ∨ statusOf id = IssueStatus.Merged) :
    processEntry settings statusOf batch issue id =
      { green := 1, yellow := 0, red := 0, grey := 0, total := 1, available := true } := by
  simp [processEntry, h]

/-- Claim C3 witness: a Fixed issue is green even though its custom-field
value is configured red. -/
theorem manual_override_wins_witness :
    processEntry ⟨["state"], ["done"], [], ["wip"]⟩ (fun _ => IssueStatus.Fixed)
        (fun _ => some [{ id := "A", value := some "wip" }]) (some ⟨"A", false, none⟩) "A" =
      { green := 1, yellow := 0, red := 0, grey := 0, total := 1, available := true } :=
  manual_override_wins _ _ _ _ "A" (Or.inl rfl)

/-- Claim C8: PUT app-settings rejects a body whose customFieldNames is
absent or not an array (both modelled by none) or is an empty array, leaving
the stored settings exactly as they were; a body with a non-empty
customFieldNames array replaces the stored settings wholesale. -/
theorem putAppSettings_requires_names (stored : Option AppSettingsBody)
    (body : AppSettingsBody) :
    (body.customFieldNames = none →
      putAppSettings stored body =
        (stored, SettingsResponse.badRequest "At least one custom field name is required"))
    ∧ (body.customFieldNames = some [] →
      putAppSettings stored body =
        (stored, SettingsResponse.badRequest "At least one custom field name is required"))
    ∧ (∀ names, body.customFieldNames = some names → names ≠ [] →
      putAppSettings stored body = (some body, SettingsResponse.ok body)) := by
  refine ⟨fun h => by simp [putAppSettings, h], fun h => by simp [putAppSettings, h],
    fun names h hne => ?_⟩
  cases names with
  | nil => exact absurd rfl hne
  | cons a t => simp [putAppSettings, h]

/-- Claim C8 witness: an empty customFieldNames array is rejected and the
previously stored settings survive unchanged. -/
theorem putAppSettings_requires_names_witness :
    putAppSettings (some ⟨some ["state"], ["done"], [], [], []⟩)
        ⟨some [], [], [], [], []⟩ =
      (some ⟨some ["state"], ["done"], [], [], []⟩,
        SettingsResponse.badRequest "At least one custom field name is required") :=
  (putAppSettings_requires_names _ _).2.1 rfl

/-- The empty store satisfies the status invariant. -/
theorem statusInvariant_empty : statusInvariant emptyIssueStatusData := by
  intro id h
  rcases h with h | h <;> simp [emptyIssueStatusData] at h

/-- PUT issue-status preserves the status invariant. -/
theorem statusInvariant_putIssueStatus (data : IssueStatusData) (issueId : String)
    (status : IssueStatus) (hInv : statusInvariant data) :
    statusInvariant (putIssueStatus data issueId status) := by
  intro id h
  by_cases hid : issueId = ""
  · simp [putIssueStatus, hid] at h ⊢
    exact hInv id h
  · by_cases hst : status = IssueStatus.Fixed ∨ status = IssueStatus.Merged
    · by_cases hi : id = issueId
      · simp [putIssueStatus, hid, hst, hi]
      · simp [putIssueStatus, hid, hst, hi] at h ⊢
        exact hInv id h
    · by_cases hi : id = issueId
      · simp [putIssueStatus, hid, hst, hi] at h
      · simp [putIssueStatus, hid, hst, hi] at h ⊢
        exact hInv id h

/-- PUT issue-test-status preserves the status invariant. -/
theorem statusInvariant_putIssueTestStatus (data : IssueStatusData) (issueId : String)
    (testStatus : TestStatus) (hInv : statusInvariant data) :
    statusInvariant (putIssueTestStatus data issueId testStatus) := by
  intro id h
  by_cases hid : issueId = ""
  · simp [putIssueTestStatus, hid] at h ⊢
    exact hInv id h
  · by_cases hi : id = issueId
    · subst hi
      by_cases hcur : data.issueStatuses id = some IssueStatus.Fixed
          ∨ data.issueStatuses id = some IssueStatus.Merged
      · simpa [putIssueTestStatus, hid] using hcur
      · simp [putIssueTestStatus, hid, hcur] at h
    · simp [putIssueTestStatus, hid, hi] at h ⊢
      exact hInv id h

/-- Claim C5: setting an issue status other than Fixed or Merged forces the
test status of that issue to Not tested; a test-status PUT for an issue whose
current status is not Fixed or Merged stores Not tested instead of the
requested value; and in every state reachable from the empty store by these
two requests, a Tested or Test NA test status implies a Fixed or Merged
issue status. -/
theorem issue_test_status_invariant :
    (∀ (data : IssueStatusData) (issueId : String) (status : IssueStatus),
      issueId ≠ "" →
      ¬(status = IssueStatus.Fixed ∨ status = IssueStatus.Merged) →
      (putIssueStatus data issueId status).testStatuses issueId = some TestStatus.NotTested
        ∧ (putIssueStatus data issueId status).issueStatuses issueId = some status)
    ∧ (∀ (data : IssueStatusData) (issueId : String) (testStatus : TestStatus),
      issueId ≠ "" →
      ¬(data.issueStatuses issueId = some IssueStatus.Fixed
          ∨ data.issueStatuses issueId = some IssueStatus.Merged) →
      (putIssueTestStatus data issueId testStatus).testStatuses issueId =
        some TestStatus.NotTested)
    ∧ (∀ ops : List StatusOp, statusInvariant (runStatusOps ops)) := by
  refine ⟨?_, ?_, ?_⟩
  · intro data issueId status hid hst
    exact ⟨by simp [putIssueStatus, hid, hst], by simp [putIssueStatus, hid]⟩
  · intro data issueId testStatus hid hcur
    simp [putIssueTestStatus, hid, hcur]
  · intro ops
    have hfold : ∀ (l : List StatusOp) (d : IssueStatusData), statusInvariant d →
        statusInvariant (l.foldl applyStatusOp d) := by
      intro l
      induction l with
      | nil => intro d hd; exact hd
      | cons op t ih =>
        intro d hd
        refine ih _ ?_
        cases op with
        | putStatus issueId status =>
          exact statusInvariant_putIssueStatus _ _ _ hd
        | putTestStatus issueId testStatus =>
          exact statusInvariant_putIssueTestStatus _ _ _ hd
    simpa [runStatusOps] using hfold ops emptyIssueStatusData statusInvariant_empty

/-- Claim C5 witness: storing Unresolved resets the test status; a Tested
request against a non-Fixed issue stores Not tested; and after marking issue
A Fixed and then Tested, the invariant lets us read back that A is Fixed or
Merged. -/
theorem issue_test_status_invariant_witness :
    (putIssueStatus emptyIssueStatusData "A" IssueStatus.Unresolved).testStatuses "A" =
        some TestStatus.NotTested
    ∧ (putIssueTestStatus emptyIssueStatusData "B" TestStatus.Tested).testStatuses "B" =
        some TestStatus.NotTested
    ∧ ((runStatusOps [StatusOp.putStatus "A" IssueStatus.Fixed,
          StatusOp.putTestStatus "A" TestStatus.Tested]).issueStatuses "A" =
            some IssueStatus.Fixed
        ∨ (runStatusOps [StatusOp.putStatus "A" IssueStatus.Fixed,
            StatusOp.putTestStatus "A" TestStatus.Tested]).issueStatuses "A" =
              some IssueStatus.Merged) :=
  ⟨(issue_test_status_invariant.1 emptyIssueStatusData "A" IssueStatus.Unresolved
      (by decide) (by decide)).1,
    issue_test_status_invariant.2.1 emptyIssueStatusData "B" TestStatus.Tested
      (by decide) (by decide),
    issue_test_status_invariant.2.2
      [StatusOp.putStatus "A" IssueStatus.Fixed, StatusOp.putTestStatus "A" TestStatus.Tested]
      "A" (by decide)⟩

/-- A hit in the keyMap returns an actual field name whose lower-casing is
the looked-up key. -/
theorem buildKeyMap_some (fields : List String) (lk a : String) :
    buildKeyMap fields lk = some a → a ∈ fields ∧ jsToLower a = lk := by
  induction fields with
  | nil => intro h; simp [buildKeyMap] at h
  | cons key rest ih =>
    intro h
    simp only [buildKeyMap] at h
    cases hr : buildKeyMap rest lk with
    | some b =>
      rw [hr] at h
      obtain rfl : b = a := by simpa using h
      have hb := ih hr
      exact ⟨List.mem_cons_of_mem _ hb.1, hb.2⟩
    | none =>
      rw [hr] at h
      by_cases hk : lk = jsToLower key
      · rw [if_pos hk] at h
        obtain rfl : key = a := by simpa using h
        exact ⟨List.mem_cons_self _ _, hk.symm⟩
      · rw [if_neg hk] at h
        simp at h

/-- The keyMap misses exactly when no field name lower-cases to the key. -/
theorem buildKeyMap_eq_none (fields : List String) (lk : String) :
    buildKeyMap fields lk = none ↔ ∀ f ∈ fields, jsToLower f ≠ lk := by
  induction fields with
  | nil => simp [buildKeyMap]
  | cons key rest ih =>
    cases hr : buildKeyMap rest lk with
    | some b =>
      have hb := buildKeyMap_some rest lk b hr
      simp only [buildKeyMap, hr]
      constructor
      · intro h; cases h
      · intro h
        exact absurd hb.2 (h b (List.mem_cons_of_mem _ hb.1))
    | none =>
      simp only [buildKeyMap, hr]
      constructor
      · intro h f hf
        rcases List.mem_cons.mp hf with rfl | hf
        · by_cases hk : lk = jsToLower f
          · rw [if_pos hk] at h; cases h
          · exact fun he => hk he.symm
        · exact ih.mp hr f hf
      · intro h
        have hko : lk ≠ jsToLower key := fun he => (h key (List.mem_cons_self _ _)) he.symm
        rw [if_neg hko]

/-- Claim C9: over an issue whose field names are all non-empty, the resolver
returns an actual field name matched by the first candidate (in candidate
order, not field order) whose name equals some field name case-insensitively,
and null when no candidate matches any field name. -/
theorem resolveFieldName_first_candidate (fields orderedNames : List String)
    (hFields : ∀ f ∈ fields, f ≠ "") :
    (resolveFieldNameCaseInsensitive fields orderedNames = none ↔
      ∀ c ∈ orderedNames, ∀ f ∈ fields, jsToLower f ≠ jsToLower c)
    ∧ (∀ pre c post, orderedNames = pre ++ c :: post →
        (∀ c2 ∈ pre, ∀ f ∈ fields, jsToLower f ≠ jsToLower c2) →
        (∃ f ∈ fields, jsToLower f = jsToLower c) →
        ∃ f ∈ fields, jsToLower f = jsToLower c
          ∧ resolveFieldNameCaseInsensitive fields orderedNames = some f) := by
  constructor
  · induction orderedNames with
    | nil => simp [resolveFieldNameCaseInsensitive]
    | cons c rest ih =>
      cases hk : buildKeyMap fields (jsToLower c) with
      | some a =>
        have ha := buildKeyMap_some fields _ a hk
        have hne : a ≠ "" := hFields a ha.1
        simp only [resolveFieldNameCaseInsensitive, hk]
        rw [if_neg hne]
        constructor
        · intro h; cases h
        · intro h; exact absurd ha.2 (h c (List.mem_cons_self _ _) a ha.1)
      | none =>
        simp only [resolveFieldNameCaseInsensitive, hk]
        rw [ih]
        constructor
        · intro h c2 hc2 f hf
          rcases List.mem_cons.mp hc2 with rfl | hc2
          · exact (buildKeyMap_eq_none fields (jsToLower c2)).mp hk f hf
          · exact h c2 hc2 f hf
        · intro h c2 hc2 f hf
          exact h c2 (List.mem_cons_of_mem _ hc2) f hf
  · intro pre
    induction pre generalizing orderedNames with
    | nil =>
      intro c post heq hpre hex
      subst heq
      obtain ⟨f, hf, hfc⟩ := hex
      cases hk : buildKeyMap fields (jsToLower c) with
      | none => exact absurd hfc ((buildKeyMap_eq_none fields _).mp hk f hf)
      | some a =>
        have ha := buildKeyMap_some fields _ a hk
        have hne : a ≠ "" := hFields a ha.1
        refine ⟨a, ha.1, ha.2, ?_⟩
        simp only [List.nil_append, resolveFieldNameCaseInsensitive, hk]
        rw [if_neg hne]
    | cons c2 pre2 ih =>
      intro c post heq hpre hex
      subst heq
      have hkc2 : buildKeyMap fields (jsToLower c2) = none :=
        (buildKeyMap_eq_none fields _).mpr
          (fun f hf => hpre c2 (List.mem_cons_self _ _) f hf)
      simp only [List.cons_append, resolveFieldNameCaseInsensitive, hkc2]
      exact ih (pre2 ++ c :: post) c post rfl
        (fun c3 hc3 f hf => hpre c3 (List.mem_cons_of_mem _ hc3) f hf) hex

/-- Claim C9 witness: with fields [Progress, State] and candidates
[state, progress], the resolver follows candidate order and returns State. -/
theorem resolveFieldName_first_candidate_witness :
    ∃ f ∈ ["Progress", "State"], jsToLower f = jsToLower "state"
      ∧ resolveFieldNameCaseInsensitive ["Progress", "State"] ["state", "progress"] =
          some f :=
  (resolveFieldName_first_candidate ["Progress", "State"] ["state", "progress"]
      (by decide)).2 [] "state" ["progress"] rfl (by simp) ⟨"State", by decide, by decide⟩

/-- The date-ordering message never comes from the version validator. -/
theorem dateMsg_not_in_versionField (rv : ReleaseVersion) :
    "Feature Freeze Date must be before Release Date" ∉ validateVersionField rv := by
  unfold validateVersionField
  split <;> simp

/-- The date-ordering message never comes from the status validator. -/
theorem dateMsg_not_in_statusField (rv : ReleaseVersion) :
    "Feature Freeze Date must be before Release Date" ∉ validateStatusField rv := by
  unfold validateStatusField
  split
  · simp
  · split <;> simp

/-- Claim C6: with both dates set, validation produces the date-ordering
error exactly when the feature-freeze date is after the release date (equal
dates pass), and when it does, the POST handler rejects the request leaving
the stored list unchanged. -/
theorem date_order_rule (store : List ReleaseVersion) (rv : ReleaseVersion) (newId : String)
    (hf : rv.featureFreezeDate ≠ "") (hr : rv.releaseDate ≠ "") :
    ("Feature Freeze Date must be before Release Date" ∈ (validateReleaseVersion rv).2 ↔
      dateLt rv.releaseDate rv.featureFreezeDate)
    ∧ (dateLt rv.releaseDate rv.featureFreezeDate →
        postReleases store rv newId =
          (store, ReleaseResponse.badRequest (validateReleaseVersion rv).2)) := by
  have hmem : "Feature Freeze Date must be before Release Date" ∈ (validateReleaseVersion rv).2 ↔
      dateLt rv.releaseDate rv.featureFreezeDate := by
    simp only [validateReleaseVersion, List.mem_append]
    constructor
    · intro h
      rcases h with (h | h) | h
      · exact absurd h (dateMsg_not_in_versionField rv)
      · exact absurd h (dateMsg_not_in_statusField rv)
      · unfold validateDateFields at h
        rw [if_neg (by simp [hr])] at h
        simp only [List.nil_append] at h
        by_cases hlt : dateLt rv.releaseDate rv.featureFreezeDate
        · exact hlt
        · rw [if_neg (by tauto)] at h
          cases h
    · intro hlt
      refine Or.inr ?_
      unfold validateDateFields
      rw [if_neg (by simp [hr]), if_pos ⟨hf, hr, hlt⟩]
      simp
  refine ⟨hmem, fun hlt => ?_⟩
  have hne : (validateReleaseVersion rv).2 ≠ [] :=
    List.ne_nil_of_mem (hmem.mpr hlt)
  unfold postReleases
  rw [if_neg hne]

/-- Claim C6 witness: a feature freeze after the release date produces
exactly the date-ordering error and leaves the empty store empty. -/
theorem date_order_rule_witness :
    ("Feature Freeze Date must be before Release Date" ∈
        (validateReleaseVersion
          ⟨"", "1.0", "", "", "2025-12-31", "2025-01-01", "", false, [], []⟩).2 ↔
      dateLt "2025-01-01" "2025-12-31")
    ∧ postReleases []
        ⟨"", "1.0", "", "", "2025-12-31", "2025-01-01", "", false, [], []⟩ "1" =
      ([], ReleaseResponse.badRequest
        (validateReleaseVersion
          ⟨"", "1.0", "", "", "2025-12-31", "2025-01-01", "", false, [], []⟩).2) := by
  have h := date_order_rule []
    ⟨"", "1.0", "", "", "2025-12-31", "2025-01-01", "", false, [], []⟩ "1"
    (by decide) (by decide)
  exact ⟨h.1, h.2 (by decide)⟩

/-- Claim C7: under a payload that passes validation, PUT release responds
not-found and leaves the store unchanged when no stored record has the
requested id, and otherwise replaces the record at the first matching index
wholesale with the validated payload carrying the looked-up id, whatever id
the payload itself supplied. -/
theorem putRelease_preserves_id (store : List ReleaseVersion) (id : String)
    (payload : ReleaseVersion) (hValid : (validateReleaseVersion payload).2 = []) :
    ((∀ rv ∈ store, rv.id ≠ id) →
      putRelease store id payload = (store, ReleaseResponse.notFound))
    ∧ (∀ index, store.findIdx? (fun rv => rv.id == id) = some index →
      putRelease store id payload =
        (store.set index { (validateReleaseVersion payload).1 with id := id },
          ReleaseResponse.ok { (validateReleaseVersion payload).1 with id := id })) := by
  constructor
  · intro habs
    have hnone : store.findIdx? (fun rv => rv.id == id) = none := by
      rw [List.findIdx?_eq_none_iff]
      intro rv hrv
      simpa using habs rv hrv
    simp [putRelease, hValid, hnone]
  · intro index hidx
    simp [putRelease, hValid, hidx]

/-- Claim C7 witness: updating record 10 with a payload claiming id 999
replaces the record but keeps id 10, and an unknown id is not found. -/
theorem putRelease_preserves_id_witness :
    putRelease [⟨"10", "1.0", "", "", "", "2025-01-01", "Planning", false, [], []⟩] "10"
        ⟨"999", "2.0", "", "", "", "2026-01-01", "Planning", false, [], []⟩ =
      ([⟨"10", "1.0", "", "", "", "2025-01-01", "Planning", false, [], []⟩].set 0
        { (validateReleaseVersion
            ⟨"999", "2.0", "", "", "", "2026-01-01", "Planning", false, [], []⟩).1 with
          id := "10" },
        ReleaseResponse.ok
          { (validateReleaseVersion
              ⟨"999", "2.0", "", "", "", "2026-01-01", "Planning", false, [], []⟩).1 with
            id := "10" }) :=
  (putRelease_preserves_id
      [⟨"10", "1.0", "", "", "", "2025-01-01", "Planning", false, [], []⟩] "10"
      ⟨"999", "2.0", "", "", "", "2026-01-01", "Planning", false, [], []⟩
      (by decide)).2 0 (by decide)

/-- Boolean equality on zones is decidable equality. -/
theorem zone_beq (a b : Zone) : (a == b) = decide (a = b) := rfl

/-- Decided zone equality is symmetric. -/
theorem zone_decide_comm (a b : Zone) : decide (a = b) = decide (b = a) :=
  decide_eq_decide.mpr eq_comm

/-- Boolean equality on issue statuses is decidable equality. -/
theorem status_beq (a b : IssueStatus) : (a == b) = decide (a = b) := rfl

/-- Folding metaStep over the related ids computes, component by component,
the description in terms of the considered ids and their spec-side zones. -/
theorem metaStep_foldl (settings : AppSettings) (statusOf : String → IssueStatus)
    (batch : String → Option (List FieldItem)) (l : List String) (acc : MetaAcc) :
    l.foldl (metaStep settings statusOf batch) acc =
      { considered := acc.considered + (consideredIds statusOf l).length
        hasRed := acc.hasRed
          || ((consideredIds statusOf l).map
              (relatedZoneSpec settings statusOf batch)).contains Zone.red
        hasYellow := acc.hasYellow
          || ((consideredIds statusOf l).map
              (relatedZoneSpec settings statusOf batch)).contains Zone.yellow
        allGreen := acc.allGreen
          && ((consideredIds statusOf l).map
              (relatedZoneSpec settings statusOf batch)).all (fun z => z == Zone.green)
        hasGreen := acc.hasGreen
          || ((consideredIds statusOf l).map
              (relatedZoneSpec settings statusOf batch)).contains Zone.green
        available := acc.available
          || metaAvailableSpec statusOf batch (consideredIds statusOf l) } := by
  induction l generalizing acc with
  | nil => simp [consideredIds, metaAvailableSpec]
  | cons relId rest ih =>
    rw [List.foldl_cons, ih]
    by_cases hd : statusOf relId = IssueStatus.Discoped
    · simp [metaStep, hd, consideredIds, metaAvailableSpec, status_beq]
    · by_cases hfm : statusOf relId = IssueStatus.Fixed ∨ statusOf relId = IssueStatus.Merged
      · rcases hfm with hs | hs <;>
          simp [metaStep, hd, hs, consideredIds, metaAvailableSpec, relatedZoneSpec,
            status_beq, zone_beq, Bool.or_assoc, Bool.and_assoc, Nat.add_comm,
            Nat.add_assoc, Nat.add_left_comm]
      · have hnf : statusOf relId ≠ IssueStatus.Fixed := fun h => hfm (Or.inl h)
        have hnm : statusOf relId ≠ IssueStatus.Merged := fun h => hfm (Or.inr h)
        cases hb : batch relId with
        | some items =>
          simp [metaStep, hd, hfm, hnf, hnm, hb, consideredIds, metaAvailableSpec,
            relatedZoneSpec, status_beq, zone_beq, Bool.or_assoc, Bool.and_assoc,
            Nat.add_comm, Nat.add_assoc, Nat.add_left_comm, zone_decide_comm]
        | none =>
          simp [metaStep, hd, hfm, hnf, hnm, hb, consideredIds, metaAvailableSpec,
            relatedZoneSpec, getZoneForValue, status_beq, zone_beq, Bool.or_assoc,
            Bool.and_assoc, Nat.add_comm, Nat.add_assoc, Nat.add_left_comm, zone_decide_comm]

/-- Claim C1: for a meta entry whose own manual status is not Fixed or
Merged, with the non-empty related list the meta-issue form guarantees, the
aggregator resolves exactly one zone from the related ids: Discoped related
issues are skipped, a Fixed or Merged one counts green, any other one counts
as the zone of its custom-field value, the zones combine with priority red
over yellow over all-green-and-some-green over grey, and when no related
issue remains after excluding Discoped the entry is grey with
available false. -/
theorem meta_entry_matches_spec (settings : AppSettings)
    (statusOf : String → IssueStatus) (batch : String → Option (List FieldItem))
    (iss : PlannedIssue) (id : String) (relatedIds : List String)
    (h1 : statusOf id ≠ IssueStatus.Fixed) (h2 : statusOf id ≠ IssueStatus.Merged)
    (hMeta : iss.isMeta = true) (hRel : iss.metaRelatedIssueIds = some relatedIds)
    (hNe : relatedIds ≠ []) :
    processEntry settings statusOf batch (some iss) id =
      (if (consideredIds statusOf relatedIds).isEmpty then entryOfZone Zone.grey false
       else
        entryOfZone
          (combineZonesSpec
            ((consideredIds statusOf relatedIds).map
              (relatedZoneSpec settings statusOf batch)))
          (metaAvailableSpec statusOf batch (consideredIds statusOf relatedIds))) := by
  have hor : ¬(statusOf id = IssueStatus.Fixed ∨ statusOf id = IssueStatus.Merged) := by
    tauto
  have hlen : relatedIds.length > 0 := List.length_pos.mpr hNe
  simp only [processEntry, if_neg hor, hMeta, if_true, hRel, if_pos hlen]
  unfold processMeta
  rw [metaStep_foldl]
  by_cases hc : consideredIds statusOf relatedIds = []
  · simp [hc, metaAvailableSpec]
  · have hlen2 : 0 < (consideredIds statusOf relatedIds).length := List.length_pos.mpr hc
    simp only [Nat.zero_add, Bool.false_or, Bool.true_and, hlen2, if_pos,
      List.isEmpty_iff, hc, if_false, combineZonesSpec]

/-- Claim C1 witness: a meta entry over one red and one green related issue
resolves red with available true, and one over a single Discoped related
issue resolves grey with available false. -/
theorem meta_entry_matches_spec_witness :
    processEntry ⟨["state"], ["done"], ["doing"], ["blocked"]⟩
        (fun i => if i = "C" then IssueStatus.Discoped else IssueStatus.Unresolved)
        (fun i =>
          if i = "A" then some [{ id := "A", value := some "blocked" }]
          else if i = "B" then some [{ id := "B", value := some "done" }]
          else none)
        (some ⟨"M", true, some ["A", "B"]⟩) "M" =
      (if (consideredIds
            (fun i => if i = "C" then IssueStatus.Discoped else IssueStatus.Unresolved)
            ["A", "B"]).isEmpty
       then entryOfZone Zone.grey false
       else
        entryOfZone
          (combineZonesSpec
            ((consideredIds
                (fun i => if i = "C" then IssueStatus.Discoped else IssueStatus.Unresolved)
                ["A", "B"]).map
              (relatedZoneSpec ⟨["state"], ["done"], ["doing"], ["blocked"]⟩
                (fun i => if i = "C" then IssueStatus.Discoped else IssueStatus.Unresolved)
                (fun i =>
                  if i = "A" then some [{ id := "A", value := some "blocked" }]
                  else if i = "B" then some [{ id := "B", value := some "done" }]
                  else none))))
          (metaAvailableSpec
            (fun i => if i = "C" then IssueStatus.Discoped else IssueStatus.Unresolved)
            (fun i =>
              if i = "A" then some [{ id := "A", value := some "blocked" }]
              else if i = "B" then some [{ id := "B", value := some "done" }]
              else none)
            (consideredIds
              (fun i => if i = "C" then IssueStatus.Discoped else IssueStatus.Unresolved)
              ["A", "B"]))) :=
  meta_entry_matches_spec ⟨["state"], ["done"], ["doing"], ["blocked"]⟩
    (fun i => if i = "C" then IssueStatus.Discoped else IssueStatus.Unresolved)
    (fun i =>
      if i = "A" then some [{ id := "A", value := some "blocked" }]
      else if i = "B" then some [{ id := "B", value := some "done" }]
      else none)
    ⟨"M", true, some ["A", "B"]⟩ "M" ["A", "B"]
    (by decide) (by decide) (by decide) (by decide) (by decide)

/-- Folding zoneStep computes, component by component, the description in
terms of the zones of the listed values. -/
theorem zoneStep_foldl (settings : AppSettings) (vals : List (Option String))
    (acc : ZoneAcc) :
    vals.foldl (zoneStep settings) acc =
      { hasRed := acc.hasRed
          || (vals.map (fun v => getZoneForValue v settings)).contains Zone.red
        hasYellow := acc.hasYellow
          || (vals.map (fun v => getZoneForValue v settings)).contains Zone.yellow
        allGreen := acc.allGreen
          && (vals.map (fun v => getZoneForValue v settings)).all (fun z => z == Zone.green)
        hasGreen := acc.hasGreen
          || (vals.map (fun v => getZoneForValue v settings)).contains Zone.green } := by
  induction vals generalizing acc with
  | nil => simp
  | cons v rest ih =>
    rw [List.foldl_cons, ih]
    simp [zoneStep, zone_beq, Bool.or_assoc, Bool.and_assoc, zone_decide_comm]

/-- The subtask combination of the regular branch equals the spec-side
priority combination of the zones of the subtask values. -/
theorem subtaskCombine_eq_spec (settings : AppSettings) (vals : List (Option String)) :
    subtaskCombine settings vals =
      combineZonesSpec (vals.map (fun v => getZoneForValue v settings)) := by
  unfold subtaskCombine
  rw [zoneStep_foldl]
  simp [combineZonesSpec]

/-- Claim C2: for a non-meta planned entry without a Fixed or Merged manual
status: a missing batch result, or one in which every value is null, gives
grey with available false; a non-null parent value alone determines the zone
(subtask values are ignored); a null parent value with some non-null fetched
value derives the zone from the subtask values by the red over yellow over
all-green-and-some-green over grey priority, with available true. -/
theorem regular_entry_matches_spec (settings : AppSettings)
    (statusOf : String → IssueStatus) (batch : String → Option (List FieldItem))
    (iss : PlannedIssue) (id : String)
    (h1 : statusOf id ≠ IssueStatus.Fixed) (h2 : statusOf id ≠ IssueStatus.Merged)
    (hMeta : iss.isMeta = false) :
    (batch id = none →
      processEntry settings statusOf batch (some iss) id =
        { green := 0, yellow := 0, red := 0, grey := 1, total := 1, available := false })
    ∧ (∀ items, batch id = some items →
        items.any (fun it => it.value.isSome) = false →
        processEntry settings statusOf batch (some iss) id =
          { green := 0, yellow := 0, red := 0, grey := 1, total := 1, available := false })
    ∧ (∀ items v, batch id = some items → bulkValue items id = some v →
        processEntry settings statusOf batch (some iss) id =
          entryOfZone (getZoneForValue (some v) settings) true)
    ∧ (∀ items, batch id = some items → bulkValue items id = none →
        items.any (fun it => it.value.isSome) = true →
        processEntry settings statusOf batch (some iss) id =
          entryOfZone
            (combineZonesSpec
              (((items.filter (fun it => it.id != id)).map (fun it => it.value)).map
                (fun v => getZoneForValue v settings)))
            true) := by
  have hor : ¬(statusOf id = IssueStatus.Fixed ∨ statusOf id = IssueStatus.Merged) := by
    tauto
  have hpe : processEntry settings statusOf batch (some iss) id =
      processRegular settings batch id := by
    simp [processEntry, hor, hMeta]
  refine ⟨?_, ?_, ?_, ?_⟩
  · intro hb
    rw [hpe]
    simp [processRegular, hb]
  · intro items hb hnone
    rw [hpe]
    simp [processRegular, hb, hnone]
  · intro items v hb hv
    rw [hpe]
    obtain ⟨it, hfind, hval⟩ :
        ∃ it, items.find? (fun x => x.id == id) = some it ∧ it.value = some v := by
      cases hf : items.find? (fun x => x.id == id) with
      | none => simp [bulkValue, hf] at hv
      | some it => exact ⟨it, rfl, by simpa [bulkValue, hf] using hv⟩
    have hmem : it ∈ items := List.mem_of_find?_eq_some hfind
    have hany : items.any (fun x => x.value.isSome) = true :=
      List.any_eq_true.mpr ⟨it, hmem, by simp [hval]⟩
    simp [processRegular, hb, hany, hv]
  · intro items hb hv hany
    rw [hpe]
    by_cases hsub : (items.filter (fun it => it.id != id)).map (fun it => it.value) = []
    · simp [processRegular, hb, hany, hv, hsub, combineZonesSpec]
    · simp [processRegular, hb, hany, hv, hsub, subtaskCombine_eq_spec]

/-- Claim C2 witness: with a non-null parent value doing, the entry is
yellow and available even though a subtask value is configured green. -/
theorem regular_entry_matches_spec_witness :
    processEntry ⟨["state"], ["done"], ["doing"], ["blocked"]⟩
        (fun _ => IssueStatus.Unresolved)
        (fun i =>
          if i = "A" then
            some [{ id := "A", value := some "doing" }, { id := "S1", value := some "done" }]
          else none)
        (some ⟨"A", false, none⟩) "A" =
      entryOfZone
        (getZoneForValue (some "doing") ⟨["state"], ["done"], ["doing"], ["blocked"]⟩)
        true :=
  (regular_entry_matches_spec ⟨["state"], ["done"], ["doing"], ["blocked"]⟩
      (fun _ => IssueStatus.Unresolved)
      (fun i =>
        if i = "A" then
          some [{ id := "A", value := some "doing" }, { id := "S1", value := some "done" }]
        else none)
      ⟨"A", false, none⟩ "A" (by decide) (by decide) (by decide)).2.2.1
    [{ id := "A", value := some "doing" }, { id := "S1", value := some "done" }]
    "doing" (by decide) (by decide)

/-- Every zone-based entry has bucket sum one and total one. -/
theorem entryOfZone_unit (zone : Zone) (available : Bool) :
    (entryOfZone zone available).green + (entryOfZone zone available).yellow
        + (entryOfZone zone available).red + (entryOfZone zone available).grey = 1
      ∧ (entryOfZone zone available).total = 1 := by
  cases zone <;> simp [entryOfZone]

/-- Every regular-branch entry has bucket sum one and total one. -/
theorem processRegular_unit (settings : AppSettings)
    (batch : String → Option (List FieldItem)) (id : String) :
    (processRegular settings batch id).green + (processRegular settings batch id).yellow
        + (processRegular settings batch id).red + (processRegular settings batch id).grey = 1
      ∧ (processRegular settings batch id).total = 1 := by
  unfold processRegular
  split
  · simp
  · split
    · exact entryOfZone_unit _ _
    · simp

/-- Every meta-branch entry has bucket sum one and total one. -/
theorem processMeta_unit (settings : AppSettings) (statusOf : String → IssueStatus)
    (batch : String → Option (List FieldItem)) (relatedIds : List String) :
    (processMeta settings statusOf batch relatedIds).green
        + (processMeta settings statusOf batch relatedIds).yellow
        + (processMeta settings statusOf batch relatedIds).red
        + (processMeta settings statusOf batch relatedIds).grey = 1
      ∧ (processMeta settings statusOf batch relatedIds).total = 1 := by
  simp only [processMeta]
  split
  · exact entryOfZone_unit _ _
  · exact entryOfZone_unit _ _

/-- Every per-entry result has bucket sum one and total one. -/
theorem processEntry_unit (settings : AppSettings) (statusOf : String → IssueStatus)
    (batch : String → Option (List FieldItem)) (issue : Option PlannedIssue) (id : String) :
    (processEntry settings statusOf batch issue id).green
        + (processEntry settings statusOf batch issue id).yellow
        + (processEntry settings statusOf batch issue id).red
        + (processEntry settings statusOf batch issue id).grey = 1
      ∧ (processEntry settings statusOf batch issue id).total = 1 := by
  simp only [processEntry]
  split
  · simp
  · split
    · split
      · split
        · split
          · exact processMeta_unit _ _ _ _
          · exact processRegular_unit _ _ _
        · exact processRegular_unit _ _ _
      · exact processRegular_unit _ _ _
    · exact processRegular_unit _ _ _

/-- Folding addEntry sums every bucket componentwise. -/
theorem addEntry_foldl (results : List EntryResult) (acc : ProgressData) :
    results.foldl addEntry acc =
      { green := acc.green + (results.map EntryResult.green).sum
        yellow := acc.yellow + (results.map EntryResult.yellow).sum
        red := acc.red + (results.map EntryResult.red).sum
        grey := acc.grey + (results.map EntryResult.grey).sum
        total := acc.total + (results.map EntryResult.total).sum } := by
  induction results generalizing acc with
  | nil => simp
  | cons r rest ih =>
    rw [List.foldl_cons, ih]
    simp [addEntry, Nat.add_assoc]

/-- A map whose values are all one sums to the length. -/
theorem sum_map_eq_length {α : Type} (l : List α) (f : α → Nat)
    (h : ∀ x ∈ l, f x = 1) : (l.map f).sum = l.length := by
  induction l with
  | nil => simp
  | cons x rest ih =>
    simp only [List.map_cons, List.sum_cons, List.length_cons,
      h x (List.mem_cons_self _ _), ih (fun y hy => h y (List.mem_cons_of_mem _ hy))]
    omega

/-- Componentwise bucket sums agree with the total sum when each entry is
internally consistent. -/
theorem sum_components (l : List EntryResult)
    (h : ∀ r ∈ l, r.green + r.yellow + r.red + r.grey = r.total) :
    (l.map EntryResult.green).sum + (l.map EntryResult.yellow).sum
        + (l.map EntryResult.red).sum + (l.map EntryResult.grey).sum =
      (l.map EntryResult.total).sum := by
  induction l with
  | nil => simp
  | cons r rest ih =>
    simp only [List.map_cons, List.sum_cons]
    have hr := h r (List.mem_cons_self _ _)
    have ht := ih (fun y hy => h y (List.mem_cons_of_mem _ hy))
    omega

/-- Folding the Set-insertion step over a duplicate-free list disjoint from
the accumulator appends the list. -/
theorem dedupFirst_aux (l : List String) (acc : List String) (hl : l.Nodup)
    (hdisj : ∀ x ∈ l, x ∉ acc) :
    l.foldl (fun acc x => if acc.contains x then acc else acc ++ [x]) acc = acc ++ l := by
  induction l generalizing acc with
  | nil => simp
  | cons x rest ih =>
    rw [List.foldl_cons]
    have hx : ¬x ∈ acc := hdisj x (List.mem_cons_self _ _)
    rw [if_neg (by simpa using hx)]
    obtain ⟨hxr, hrest⟩ := List.nodup_cons.mp hl
    rw [ih (acc ++ [x]) hrest ?_]
    · simp
    · intro y hy hmem
      rcases List.mem_append.mp hmem with hya | hyx
      · exact hdisj y (List.mem_cons_of_mem _ hy) hya
      · have hyx2 : y = x := by simpa using hyx
        exact hxr (hyx2 ▸ hy)

/-- On a duplicate-free list, first-occurrence deduplication is the
identity. -/
theorem dedupFirst_eq_self (l : List String) (hl : l.Nodup) : dedupFirst l = l := by
  unfold dedupFirst
  simpa using dedupFirst_aux l [] hl (by simp)

/-- Filtering the ids of planned issues is mapping the ids of the filtered
planned issues. -/
theorem map_id_filter (plannedIssues : List PlannedIssue) (p : String → Bool) :
    (plannedIssues.map PlannedIssue.id).filter p =
      (plannedIssues.filter (fun q => p q.id)).map PlannedIssue.id := by
  induction plannedIssues with
  | nil => simp
  | cons q rest ih =>
    by_cases hq : p q.id <;> simp [hq, ih]

/-- Under non-empty, duplicate-free ids, the filtered id list of
useVersionProgress is exactly the ids of the non-Discoped planned issues. -/
theorem filteredIds_eq (plannedIssues : List PlannedIssue)
    (statusOf : String → IssueStatus)
    (hIds : ∀ q ∈ plannedIssues, q.id ≠ "")
    (hNodup : (plannedIssues.map PlannedIssue.id).Nodup) :
    filteredIds plannedIssues statusOf =
      (plannedIssues.filter
        (fun q => statusOf q.id != IssueStatus.Discoped)).map PlannedIssue.id := by
  unfold filteredIds effectiveIdsRaw
  have h1 : (plannedIssues.map PlannedIssue.id).filter (fun i => i != "") =
      plannedIssues.map PlannedIssue.id := by
    rw [List.filter_eq_self]
    intro a ha
    obtain ⟨q, hq, rfl⟩ := List.mem_map.mp ha
    simpa using hIds q hq
  rw [h1, dedupFirst_eq_self _ hNodup, map_id_filter]

/-- Claim C4: under non-empty, duplicate-free planned-issue ids and loaded
statuses, the computed release tally satisfies green + yellow + red + grey =
total, its total counts exactly one per planned issue (a meta issue as one
unit) that is not Discoped, Discoped issues contribute nothing, and an empty
or all-Discoped planned list yields the all-zero tally with available
false. -/
theorem release_tally_consistent (plannedIssues : List PlannedIssue)
    (settings : AppSettings) (statusOf : String → IssueStatus)
    (fieldData : String → Option (List FieldItem))
    (hIds : ∀ q ∈ plannedIssues, q.id ≠ "")
    (hNodup : (plannedIssues.map PlannedIssue.id).Nodup) :
    (fetchIssueData plannedIssues settings statusOf fieldData true).isSome = true
    ∧ ∀ tally available,
        fetchIssueData plannedIssues settings statusOf fieldData true =
            some (tally, available) →
        (tally.green + tally.yellow + tally.red + tally.grey = tally.total
          ∧ tally.total =
              (plannedIssues.filter
                (fun q => statusOf q.id != IssueStatus.Discoped)).length
          ∧ (plannedIssues.filter (fun q => statusOf q.id != IssueStatus.Discoped) = [] →
              tally = { green := 0, yellow := 0, red := 0, grey := 0, total := 0 }
                ∧ available = false)) := by
  have hfe := filteredIds_eq plannedIssues statusOf hIds hNodup
  by_cases hempty : filteredIds plannedIssues statusOf = []
  · have hfil : plannedIssues.filter (fun q => statusOf q.id != IssueStatus.Discoped) = [] := by
      have hmapnil : (plannedIssues.filter
          (fun q => statusOf q.id != IssueStatus.Discoped)).map PlannedIssue.id = [] := by
        rw [← hfe]
        exact hempty
      exact List.map_eq_nil_iff.mp hmapnil
    have heq : fetchIssueData plannedIssues settings statusOf fieldData true =
        some ({ green := 0, yellow := 0, red := 0, grey := 0, total := 0 }, false) := by
      simp [fetchIssueData, hempty]
    refine ⟨by rw [heq]; rfl, fun tally available h => ?_⟩
    have hpair := Option.some.inj (heq.symm.trans h)
    have h1 : ({ green := 0, yellow := 0, red := 0, grey := 0, total := 0 } : ProgressData)
        = tally := congrArg Prod.fst hpair
    have h2 : false = available := congrArg Prod.snd hpair
    subst h1
    subst h2
    exact ⟨by simp, by simp [hfil], fun _ => ⟨rfl, rfl⟩⟩
  · have hiseF : (filteredIds plannedIssues statusOf).isEmpty = false := by
      simpa [List.isEmpty_iff] using hempty
    have heq : fetchIssueData plannedIssues settings statusOf fieldData true =
        some (((filteredIds plannedIssues statusOf).map fun id =>
            processEntry settings statusOf
              (restrictBatch settings (allIssueIdsToFetch plannedIssues statusOf) fieldData)
              (idToIssue plannedIssues id) id).foldl addEntry
            { green := 0, yellow := 0, red := 0, grey := 0, total := 0 },
          ((filteredIds plannedIssues statusOf).any fun id =>
              statusOf id == IssueStatus.Fixed || statusOf id == IssueStatus.Merged)
            || (((filteredIds plannedIssues statusOf).map fun id =>
                processEntry settings statusOf
                  (restrictBatch settings (allIssueIdsToFetch plannedIssues statusOf)
                    fieldData)
                  (idToIssue plannedIssues id) id).any EntryResult.available)) := by
      simp [fetchIssueData, hiseF]
    have hall : ∀ r ∈ ((filteredIds plannedIssues statusOf).map fun id =>
        processEntry settings statusOf
          (restrictBatch settings (allIssueIdsToFetch plannedIssues statusOf) fieldData)
          (idToIssue plannedIssues id) id),
        (r.green + r.yellow + r.red + r.grey = r.total) ∧ r.total = 1 := by
      intro r hr
      obtain ⟨i, hi, rfl⟩ := List.mem_map.mp hr
      have h := processEntry_unit settings statusOf
        (restrictBatch settings (allIssueIdsToFetch plannedIssues statusOf) fieldData)
        (idToIssue plannedIssues i) i
      exact ⟨h.1.trans h.2.symm, h.2⟩
    refine ⟨by rw [heq]; rfl, fun tally available h => ?_⟩
    have hpair := Option.some.inj (heq.symm.trans h)
    have h1 := congrArg Prod.fst hpair
    have h2 := congrArg Prod.snd hpair
    simp only at h1 h2
    subst h1
    subst h2
    have hsum := sum_components _ (fun r hr => (hall r hr).1)
    have hlen := sum_map_eq_length _ EntryResult.total (fun r hr => (hall r hr).2)
    refine ⟨?_, ?_, ?_⟩
    · rw [addEntry_foldl]
      simp only [Nat.zero_add]
      exact hsum
    · rw [addEntry_foldl]
      simp only [Nat.zero_add]
      rw [hlen, List.length_map, hfe, List.length_map]
    · intro hfil
      exfalso
      apply hempty
      rw [hfe, hfil]
      rfl

/-- Claim C4 witness: with issue A Discoped and meta issue B over one
unresolved related issue without field data, the tally is one grey unit with
matching sums and available false. -/
theorem release_tally_consistent_witness :
    (fetchIssueData [⟨"A", false, none⟩, ⟨"B", true, some ["C"]⟩]
        ⟨["state"], ["done"], [], []⟩
        (fun i => if i = "A" then IssueStatus.Discoped else IssueStatus.Unresolved)
        (fun _ => none) true).isSome = true
    ∧ (({ green := 0, yellow := 0, red := 0, grey := 1, total := 1 } : ProgressData).green
          + ({ green := 0, yellow := 0, red := 0, grey := 1, total := 1 } : ProgressData).yellow
          + ({ green := 0, yellow := 0, red := 0, grey := 1, total := 1 } : ProgressData).red
          + ({ green := 0, yellow := 0, red := 0, grey := 1, total := 1 } : ProgressData).grey =
        ({ green := 0, yellow := 0, red := 0, grey := 1, total := 1 } : ProgressData).total
        ∧ ({ green := 0, yellow := 0, red := 0, grey := 1, total := 1 } : ProgressData).total =
            (([⟨"A", false, none⟩, ⟨"B", true, some ["C"]⟩] : List PlannedIssue).filter
              (fun q => (if q.id = "A" then IssueStatus.Discoped else IssueStatus.Unresolved)
                != IssueStatus.Discoped)).length
        ∧ (([⟨"A", false, none⟩, ⟨"B", true, some ["C"]⟩] : List PlannedIssue).filter
              (fun q => (if q.id = "A" then IssueStatus.Discoped else IssueStatus.Unresolved)
                != IssueStatus.Discoped) = [] →
            ({ green := 0, yellow := 0, red := 0, grey := 1, total := 1 } : ProgressData) =
              { green := 0, yellow := 0, red := 0, grey := 0, total := 0 }
              ∧ false = false)) :=
  ⟨(release_tally_consistent [⟨"A", false, none⟩, ⟨"B", true, some ["C"]⟩]
      ⟨["state"], ["done"], [], []⟩
      (fun i => if i = "A" then IssueStatus.Discoped else IssueStatus.Unresolved)
      (fun _ => none) (by decide) (by decide)).1,
    (release_tally_consistent [⟨"A", false, none⟩, ⟨"B", true, some ["C"]⟩]
      ⟨["state"], ["done"], [], []⟩
      (fun i => if i = "A" then IssueStatus.Discoped else IssueStatus.Unresolved)
      (fun _ => none) (by decide) (by decide)).2
      { green := 0, yellow := 0, red := 0, grey := 1, total := 1 } false (by decide)⟩

end ReleaseManager
